import Mathlib

/-!
Verification of the DataTable component (vue-data-table).

The development shallowly embeds the component's data pipeline and
interaction state machine from `src/unnamed/part_001` (the `<script setup>`
block of `DataTable.vue`): the filter engine (`updateFilteredData`), the
multi-column sort engine (`sortRows` / `getOrderCorrection` / `updateOrder`,
`sortDirection`, `sortInvocationOrder`), the paginator
(`currentPage`, `paginatorMaxPage`, the four paginator buttons) and the
row-expansion map (`expandedRows`, the expander click handler).

Modelling conventions:
- JS arrays of row objects become `List Row` with `Row = List (String × CellValue)`
  (`Object.entries` order = list order); reading an absent property yields
  `Option.none` (JS `undefined`).
- JS numbers are modelled as `Int` (all cell data exercised by the claims is
  integral); `String(n)` agrees with `toString` on integers.
- `Array.prototype.sort` is required by the ECMAScript spec to be stable; any
  stable sort computes the same output for a consistent comparator, so it is
  embedded as a stable insertion sort (`jsStableSort`).
- The JS relational operators `<` / `>` on cell values are embedded in
  `cellLtV` for the homogeneous cases (number/number, string/string via
  16-bit-code-unit lexicographic order, boolean/boolean) and the coercion
  cases exercised nowhere by the claims are embedded as `false` (the NaN
  behaviour); `a > b` is evaluated as `b < a`, exactly as in ECMAScript.
- The aliasing introduced by `displayedData.value = props.data` (no filter
  keys) versus the fresh arrays produced by `props.data.filter(...)` and by
  the spread `[...arr.sort(...)]` is tracked by the boolean field
  `displayedAliasesData`: an in-place sort of the aliased array mutates
  `data` as well; the spread then breaks the alias.
-/

/- ## Cell values and the JS relational comparison -/

inductive CellValue where
  | num  : Int → CellValue
  | str  : String → CellValue
  | bool : Bool → CellValue
  | obj  : Nat → CellValue
deriving DecidableEq

abbrev Row := List (String × CellValue)

/-- JS string comparison: lexicographic on code units, shorter prefix first. -/
def charListLt : List Char → List Char → Bool
  | _, [] => false
  | [], _ :: _ => true
  | a :: as, b :: bs =>
      if a.toNat < b.toNat then true
      else if b.toNat < a.toNat then false
      else charListLt as bs

def strLt (s t : String) : Bool := charListLt s.data t.data

/-- JS `String(v)` for the cell value types (integers print as in JS). -/
def jsToString : CellValue → String
  | .num n => toString n
  | .str s => s
  | .bool b => if b then "true" else "false"
  | .obj _ => "[object Object]"

/-- JS `a < b` on defined cell values. Homogeneous comparisons follow the
ECMAScript abstract relational comparison; value pairs requiring numeric
coercion of strings (never produced by any claim) are embedded as `false`,
the NaN outcome. -/
def cellLtV : CellValue → CellValue → Bool
  | .num a, .num b => decide (a < b)
  | .str a, .str b => strLt a b
  | .bool a, .bool b => !a && b
  | .num a, .bool b => decide (a < (if b then (1 : Int) else 0))
  | .bool a, .num b => decide ((if a then (1 : Int) else 0) < b)
  | .str a, .obj _ => strLt a "[object Object]"
  | .obj _, .str b => strLt "[object Object]" b
  | _, _ => false

/-- JS `a < b` where either side may be `undefined` (absent row property):
any comparison with `undefined` is `false`. -/
def cellLt : Option CellValue → Option CellValue → Bool
  | some a, some b => cellLtV a b
  | _, _ => false

/-- `row[key]` : first entry wins, absent key is `undefined`. -/
def getCell (r : Row) (h : String) : Option CellValue :=
  match r with
  | [] => Option.none
  | (k, v) :: t => if k = h then some v else getCell t h

/-- The comparison `rowA[header] < rowB[header]` used by `updateOrder`. -/
def rowLt (h : String) (r s : Row) : Bool := cellLt (getCell r h) (getCell s h)

/-- The comparator body of `updateOrder`:
`valA > valB → orderCorrection`, `valA < valB → -orderCorrection`, else `0`
(`valA > valB` is evaluated as `valB < valA`). -/
def rowCmp (h : String) (corr : Int) (r s : Row) : Int :=
  if rowLt h s r then corr else if rowLt h r s then -corr else 0

/-- The "keep `r` before `s`" relation of a stable JS sort under the
`updateOrder` comparator: comparator result `≤ 0`. -/
def rowLe (h : String) (corr : Int) (r s : Row) : Bool :=
  decide (rowCmp h corr r s ≤ 0)

/- ## Stable sort (model of `Array.prototype.sort`) -/

/-- Insert `a` (the element that originally came first) before the first
element it need not follow. -/
def jsInsert (le : α → α → Bool) (a : α) : List α → List α
  | [] => [a]
  | b :: l => if le a b then a :: b :: l else b :: jsInsert le a l

/-- Stable sort: for a consistent comparator this computes the output
required of `Array.prototype.sort`. -/
def jsStableSort (le : α → α → Bool) : List α → List α
  | [] => []
  | a :: l => jsInsert le a (jsStableSort le l)

/- ## Filters -/

inductive FilterVal where
  | str : String → FilterVal
  | mod : String → (String → CellValue → Bool) → FilterVal

abbrev FilterSpec := List (String × FilterVal)

/-- JS `haystack.includes(needle)` (empty needle always matches). -/
def charPrefix : List Char → List Char → Bool
  | [], _ => true
  | _ :: _, [] => false
  | a :: as, b :: bs => a = b && charPrefix as bs

def charInfix (sub : List Char) : List Char → Bool
  | [] => charPrefix sub []
  | c :: t => charPrefix sub (c :: t) || charInfix sub t

def strIncludes (s sub : String) : Bool := charInfix sub.data s.data

/-- Assoc-list lookup, first entry wins (JS property read). -/
def lookupAssoc {β : Type} (m : List (String × β)) (k : String) : Option β :=
  match m with
  | [] => Option.none
  | (k', v) :: t => if k' = k then some v else lookupAssoc t k

/-- Assoc-list update in place, appending when absent (JS property write). -/
def setAssoc {β : Type} (m : List (String × β)) (k : String) (v : β) :
    List (String × β) :=
  match m with
  | [] => [(k, v)]
  | (k', v') :: t => if k' = k then (k, v) :: t else (k', v') :: setAssoc t k v

/-- The row predicate of `updateFilteredData` (the body of
`props.data.filter(...)`): a row passes iff it is neither globally filtered
out nor filtered out by a per-column filter.  The TS prop type constrains the
`global` entry to a plain string; a modifier object under `global` would make
`props.filters.global!.length` undefined, hence falsy. -/
def rowPasses (fs : FilterSpec) (row : Row) : Bool :=
  let globallyOut : Bool :=
    match lookupAssoc fs "global" with
    | some (FilterVal.str g) =>
        g.length != 0 &&
          !(row.any (fun kv => strIncludes ((jsToString kv.2).toLower) g.toLower))
    | some (FilterVal.mod _ _) => false
    | Option.none => false
  let filteredOut : Bool :=
    row.any (fun kv =>
      match lookupAssoc fs kv.1 with
      | Option.none => false
      | some (FilterVal.str fv) =>
          !(strIncludes ((jsToString kv.2).toLower) fv.toLower)
      | some (FilterVal.mod fval fmod) => fval.length != 0 && !(fmod fval kv.2))
  !filteredOut && !globallyOut

/- ## Component state -/

inductive SortDirection where
  | None | Ascending | Descending
deriving DecidableEq

structure TableState where
  data : List Row
  filters : FilterSpec
  displayed : List Row
  /-- `true` while `displayedData.value` is the very array object `props.data`. -/
  displayedAliasesData : Bool
  sortDirection : List (String × SortDirection)
  sortInvocationOrder : List String
  currentPage : Nat
  maxRows : Option Nat

/-- `updateFilteredData`: resets the paginator, then either passes
`props.data` through unchanged (no filter keys: the displayed view aliases
the source array) or produces a fresh filtered array. -/
def updateFilteredData (s : TableState) : TableState :=
  let s0 := { s with currentPage := 1 }
  if s0.filters.isEmpty then
    { s0 with displayed := s0.data, displayedAliasesData := true }
  else
    { s0 with displayed := s0.data.filter (fun r => rowPasses s0.filters r),
              displayedAliasesData := false }

/-- `updateOrder(header, orderCorrection)`: no-op when the column's direction
is `'None'`; otherwise sorts `displayedData.value` in place (mutating
`props.data` when aliased) and assigns the spread copy, which breaks the
alias. -/
def updateOrder (s : TableState) (h : String) (corr : Int) : TableState :=
  if lookupAssoc s.sortDirection h = some SortDirection.None then s
  else
    let sorted := jsStableSort (rowLe h corr) s.displayed
    { s with displayed := sorted,
             data := if s.displayedAliasesData then sorted else s.data,
             displayedAliasesData := false }

/-- The no-argument `sortRows()` loop: `for (header of sortInvocationOrder)
updateOrder(header)` — each call uses the default `orderCorrection = 1`. -/
def resortAll (s : TableState) : TableState :=
  s.sortInvocationOrder.foldl (fun t h => updateOrder t h 1) s

/-- `applyModifiers()` = `updateFilteredData(); sortRows()`. -/
def applyModifiers (s : TableState) : TableState :=
  resortAll (updateFilteredData s)

/-- `sortInvocationOrder.splice(sortInvocationOrder.indexOf(header), 1)`:
removes the first occurrence when present; with `indexOf = -1`,
`splice(-1, 1)` removes the last element. -/
def spliceAtIndexOf (l : List String) (h : String) : List String :=
  if l.contains h then l.erase h else l.dropLast

/-- `getOrderCorrection(header)`: advances the tri-state and returns the
comparator multiplier.  A key absent from `sortDirection` matches no switch
case: the state is untouched and JS returns `undefined` (`Option.none`). -/
def getOrderCorrection (s : TableState) (h : String) : TableState × Option Int :=
  match lookupAssoc s.sortDirection h with
  | some SortDirection.Ascending =>
      ({ s with sortDirection := setAssoc s.sortDirection h SortDirection.Descending },
       some (-1))
  | some SortDirection.Descending =>
      let s1 := { s with
        sortDirection := setAssoc s.sortDirection h SortDirection.None,
        sortInvocationOrder := spliceAtIndexOf s.sortInvocationOrder h }
      (applyModifiers s1, some 0)
  | some SortDirection.None =>
      ({ s with sortDirection := setAssoc s.sortDirection h SortDirection.Ascending },
       some 1)
  | Option.none => (s, Option.none)

/-- `sortRows(maybeHeader)` with a header argument (a header click): move the
key to the end of the invocation order, advance its tri-state, re-sort.  An
`undefined` correction triggers `updateOrder`'s default parameter `1`. -/
def toggleSort (s : TableState) (h : String) : TableState :=
  let o := s.sortInvocationOrder
  let o1 := (if o.contains h then o.erase h else o) ++ [h]
  let s1 := { s with sortInvocationOrder := o1 }
  let p := getOrderCorrection s1 h
  updateOrder p.1 h (p.2.getD 1)

/- ## Paginator -/

/-- `paginatorMaxPage = Math.ceil(displayedData.length / (maxRows ?? 1))`
(embedded as the Nat ceiling division, exact for `maxRows ≥ 1`). -/
def paginatorMaxPage (s : TableState) : Nat :=
  (s.displayed.length + (s.maxRows.getD 1) - 1) / (s.maxRows.getD 1)

def setPage (s : TableState) (p : Nat) : TableState := { s with currentPage := p }

/-- Paginator button `⇤`: `currentPage = 1`. -/
def pageFirst (s : TableState) : TableState := { s with currentPage := 1 }

/-- Paginator button `←`: `currentPage = Math.max(currentPage - 1, 1)`. -/
def pagePrev (s : TableState) : TableState :=
  { s with currentPage := max (s.currentPage - 1) 1 }

/-- Paginator button `→`: `currentPage = Math.min(currentPage + 1, paginatorMaxPage)`. -/
def pageNext (s : TableState) : TableState :=
  { s with currentPage := min (s.currentPage + 1) (paginatorMaxPage s) }

/-- Paginator button `⇥`: `currentPage = paginatorMaxPage`. -/
def pageLast (s : TableState) : TableState :=
  { s with currentPage := paginatorMaxPage s }

/- ## Row expansion -/

/-- JS property-key coercion of `row[dataIdKey]`: `undefined` becomes the
string key `"undefined"`. -/
def jsKeyString : Option CellValue → String
  | Option.none => "undefined"
  | some v => jsToString v

abbrev ExpMap := List (String × Bool)

/-- `expandedRows = Object.fromEntries(props.data.map(row => [row[dataIdKey], false]))`. -/
def initExpandedRows (data : List Row) (idKey : String) : ExpMap :=
  data.foldl (fun m r => setAssoc m (jsKeyString (getCell r idKey)) false) []

/-- The expander click handler:
`expandedRows[k] = !expandedRows[k]` (with `!undefined = true`). -/
def toggleExpanded (m : ExpMap) (k : String) : ExpMap :=
  setAssoc m k (!((lookupAssoc m k).getD false))

/-- Truthiness of `expandedRows[k]` (what the `v-if` renders on). -/
def isExpandedKey (m : ExpMap) (k : String) : Bool :=
  (lookupAssoc m k).getD false

def rowIdKeyStr (idKey : String) (r : Row) : String :=
  jsKeyString (getCell r idKey)

def clickExpander (m : ExpMap) (idKey : String) (r : Row) : ExpMap :=
  toggleExpanded m (rowIdKeyStr idKey r)

def isRowExpanded (m : ExpMap) (idKey : String) (r : Row) : Bool :=
  isExpandedKey m (rowIdKeyStr idKey r)

/- ## Initialization and external events -/

/-- `sortDirection` is seeded with `'None'` for each initial header key. -/
def initSortDirection (keys : List String) : List (String × SortDirection) :=
  keys.map (fun k => (k, SortDirection.None))

def initState (keys : List String) (data : List Row) (fs : FilterSpec)
    (mr : Option Nat) : TableState :=
  { data := data, filters := fs, displayed := [], displayedAliasesData := false,
    sortDirection := initSortDirection keys, sortInvocationOrder := [],
    currentPage := 1, maxRows := mr }

/-- Component state right after `onBeforeMount` ran `updateFilteredData()`. -/
def mountState (keys : List String) (data : List Row) (fs : FilterSpec)
    (mr : Option Nat) : TableState :=
  updateFilteredData (initState keys data fs mr)

/-- A change of the `data` / `filters` props: the deep watchers run
`applyModifiers`. -/
def changeProps (s : TableState) (nd : List Row) (nf : FilterSpec) : TableState :=
  applyModifiers { s with data := nd, filters := nf }

/-- External events driving the sort state machine. -/
inductive TableOp where
  | toggle : String → TableOp
  | change : List Row → FilterSpec → TableOp

def applyOp (s : TableState) : TableOp → TableState
  | .toggle h => toggleSort s h
  | .change nd nf => changeProps s nd nf

def runOps (s : TableState) (ops : List TableOp) : TableState :=
  ops.foldl applyOp s

/- ## Derived predicates used by the claims -/

/-- Comparability of a column over a row set: the negative transitivity the
JS comparator enjoys on every homogeneous (hence totally ordered) column;
it can fail only for mixed-type columns, whose behaviour the specification
leaves undefined. -/
def ltNegTransOn (h : String) (rows : List Row) : Bool :=
  rows.all fun a => rows.all fun b => rows.all fun c =>
    !(rowLt h a c) || (rowLt h a b || rowLt h b c)

/-- Well-formedness of the sort state over the initially known header keys:
the invocation order has no duplicates and holds exactly the actively sorted
columns, and every initial column carries one of the three direction values. -/
def SDOk (s : TableState) (keys : List String) : Prop :=
  s.sortInvocationOrder.Nodup ∧
  (∀ h, h ∈ s.sortInvocationOrder ↔
    lookupAssoc s.sortDirection h = some SortDirection.Ascending ∨
    lookupAssoc s.sortDirection h = some SortDirection.Descending) ∧
  (∀ h, (lookupAssoc s.sortDirection h).isSome ↔ h ∈ keys)

/- ## Concrete scenario states used by the individual claims -/

def c1rowA : Row := [("a", CellValue.num 2)]
def c1rowB : Row := [("a", CellValue.num 1)]
def c1afterToggles : TableState :=
  toggleSort (toggleSort (mountState ["a"] [c1rowA, c1rowB] [] Option.none) "a") "a"

def c2final : TableState :=
  toggleSort (toggleSort (toggleSort
    (mountState ["h1", "h2"] [] [] Option.none) "h1") "h2") "h1"
def c2wState : TableState :=
  { data := [], filters := [], displayed := [], displayedAliasesData := false,
    sortDirection := [("h1", SortDirection.Ascending), ("h2", SortDirection.Ascending)],
    sortInvocationOrder := ["h1", "h2"], currentPage := 1, maxRows := Option.none }

def c3row1 : Row := [("id", CellValue.num 1), ("h1", CellValue.str "b"), ("h2", CellValue.num 2)]
def c3row2 : Row := [("id", CellValue.num 2), ("h1", CellValue.str "a"), ("h2", CellValue.num 2)]
def c3row3 : Row := [("id", CellValue.num 3), ("h1", CellValue.str "a"), ("h2", CellValue.num 1)]
def c3rows : List Row := [c3row1, c3row2, c3row3]

def c4row : Row := [("h1", CellValue.num 1)]
def c4wState : TableState := mountState ["h1"] [c4row, c4row, c4row] [] (some 2)
def c4emptyState : TableState := mountState [] [] [] (some 5)

def c5row : Row := [("a", CellValue.num 1)]

def c7cexState : TableState := toggleSort (mountState ["h1"] [] [] Option.none) "h2"

def c8rowA : Row := [("id", CellValue.num 1)]
def c8rowB : Row := [("id", CellValue.str "1")]
def c8rowC : Row := [("id", CellValue.num 2)]

def c9row : Row := [("h1", CellValue.num 1)]
def c9start : TableState := mountState ["h1"] [c9row] [] (some 5)

def c10row1 : Row := [("b", CellValue.num 2)]
def c10row2 : Row := [("b", CellValue.num 1)]
def c10unfiltered : TableState := mountState ["b"] [c10row1, c10row2] [] Option.none
def c10filtered : TableState :=
  mountState ["b"] [c10row1, c10row2] [("b", FilterVal.str "")] Option.none

/- ## Assoc-list lemmas -/

theorem lookup_setAssoc_self {β : Type} (m : List (String × β)) (k : String) (v : β) :
    lookupAssoc (setAssoc m k v) k = some v := by
  induction m with
  | nil => simp [setAssoc, lookupAssoc]
  | cons p t ih =>
      obtain ⟨k', v'⟩ := p
      by_cases h : k' = k <;> simp [setAssoc, lookupAssoc, h, ih]

theorem lookup_setAssoc_ne {β : Type} (m : List (String × β)) (k k' : String) (v : β)
    (h : k' ≠ k) : lookupAssoc (setAssoc m k v) k' = lookupAssoc m k' := by
  have h' : ¬ k = k' := fun hh => h hh.symm
  induction m with
  | nil => simp [setAssoc, lookupAssoc, h']
  | cons p t ih =>
      obtain ⟨k₀, v₀⟩ := p
      by_cases h0 : k₀ = k
      · subst h0
        simp [setAssoc, lookupAssoc, h']
      · by_cases h1 : k₀ = k' <;> simp [setAssoc, lookupAssoc, h, h0, h1, ih]

theorem isSome_lookup_setAssoc {β : Type} (m : List (String × β)) (k k' : String) (v : β) :
    (lookupAssoc (setAssoc m k v) k').isSome =
      (k' = k || (lookupAssoc m k').isSome) := by
  by_cases h : k' = k
  · subst h; simp [lookup_setAssoc_self]
  · simp [lookup_setAssoc_ne m k k' v h, h]

theorem lookup_initSortDirection (keys : List String) (h : String) :
    lookupAssoc (initSortDirection keys) h =
      if h ∈ keys then some SortDirection.None else Option.none := by
  induction keys with
  | nil => simp [initSortDirection, lookupAssoc]
  | cons k t ih =>
      by_cases hk : k = h
      · subst hk; simp [initSortDirection, lookupAssoc]
      · have hk' : ¬ h = k := fun hh => hk hh.symm
        simp only [initSortDirection, List.map_cons, lookupAssoc, if_neg hk] at ih ⊢
        rw [ih]
        simp [List.mem_cons, hk']

/- ## Permutation and membership for the stable sort -/

theorem jsInsert_perm (le : α → α → Bool) (a : α) (l : List α) :
    (jsInsert le a l).Perm (a :: l) := by
  induction l with
  | nil => simp [jsInsert]
  | cons b t ih =>
      by_cases h : le a b
      · simp [jsInsert, h]
      · simp only [jsInsert, h, Bool.false_eq_true, if_false]
        exact (ih.cons b).trans (List.Perm.swap a b t)

theorem jsStableSort_perm (le : α → α → Bool) (l : List α) :
    (jsStableSort le l).Perm l := by
  induction l with
  | nil => simp [jsStableSort]
  | cons a t ih =>
      exact (jsInsert_perm le a (jsStableSort le t)).trans (ih.cons a)

theorem mem_jsInsert (le : α → α → Bool) (a x : α) (l : List α) :
    x ∈ jsInsert le a l ↔ x = a ∨ x ∈ l := by
  rw [(jsInsert_perm le a l).mem_iff]
  simp

theorem mem_jsStableSort (le : α → α → Bool) (x : α) (l : List α) :
    x ∈ jsStableSort le l ↔ x ∈ l :=
  (jsStableSort_perm le l).mem_iff

/- ## Sortedness of the stable sort, relative to a carrier predicate -/

theorem jsInsert_pairwise (le : α → α → Bool) (P : α → Prop)
    (htot : ∀ x y, P x → P y → le x y = true ∨ le y x = true)
    (htr : ∀ x y z, P x → P y → P z → le x y = true → le y z = true → le x z = true)
    (a : α) (ha : P a) :
    ∀ l : List α, (∀ x ∈ l, P x) →
      l.Pairwise (fun x y => le x y = true) →
      (jsInsert le a l).Pairwise (fun x y => le x y = true) := by
  intro l
  induction l with
  | nil => intro _ _; simp [jsInsert]
  | cons b t ih =>
      intro hP hpw
      have hPb : P b := hP b (by simp)
      have hPt : ∀ x ∈ t, P x := fun x hx => hP x (by simp [hx])
      rw [List.pairwise_cons] at hpw
      by_cases h : le a b
      · simp only [jsInsert, h, if_true]
        rw [List.pairwise_cons]
        refine ⟨?_, List.pairwise_cons.mpr hpw⟩
        intro x hx
        rcases List.mem_cons.mp hx with hx | hx
        · exact hx ▸ h
        · exact htr a b x ha hPb (hPt x hx) h (hpw.1 x hx)
      · simp only [jsInsert, h, Bool.false_eq_true, if_false]
        rw [List.pairwise_cons]
        refine ⟨?_, ih hPt hpw.2⟩
        intro x hx
        rcases (mem_jsInsert le a x t).mp hx with hx | hx
        · rcases htot a b ha hPb with hab | hba
          · exact absurd hab h
          · rw [hx]; exact hba
        · exact hpw.1 x hx

theorem jsStableSort_pairwise (le : α → α → Bool) (P : α → Prop)
    (htot : ∀ x y, P x → P y → le x y = true ∨ le y x = true)
    (htr : ∀ x y z, P x → P y → P z → le x y = true → le y z = true → le x z = true)
    (l : List α) (hP : ∀ x ∈ l, P x) :
    (jsStableSort le l).Pairwise (fun x y => le x y = true) := by
  induction l with
  | nil => simp [jsStableSort]
  | cons a t ih =>
      have hPa : P a := hP a (by simp)
      have hPt : ∀ x ∈ t, P x := fun x hx => hP x (by simp [hx])
      exact jsInsert_pairwise le P htot htr a hPa (jsStableSort le t)
        (fun x hx => hPt x ((mem_jsStableSort le x t).mp hx)) (ih hPt)

/- ## Asymmetry of the JS relational comparison -/

theorem charListLt_asymm : ∀ (a b : List Char),
    charListLt a b = true → charListLt b a = false := by
  intro a
  induction a with
  | nil =>
      intro b hb
      cases b with
      | nil => simp [charListLt] at hb
      | cons y ys => simp [charListLt]
  | cons x xs ih =>
      intro b hb
      cases b with
      | nil => simp [charListLt] at hb
      | cons y ys =>
          simp only [charListLt] at hb ⊢
          by_cases h1 : x.toNat < y.toNat
          · have h2 : ¬ y.toNat < x.toNat := by omega
            simp [h1, h2]
          · by_cases h2 : y.toNat < x.toNat
            · simp [h1, h2] at hb
            · simp only [h1, h2, if_false] at hb ⊢
              exact ih ys hb

theorem strLt_asymm (s t : String) (h : strLt s t = true) : strLt t s = false :=
  charListLt_asymm _ _ h

theorem cellLtV_asymm : ∀ a b, cellLtV a b = true → cellLtV b a = false := by
  intro a b
  cases a with
  | num n =>
      cases b with
      | num m => simp [cellLtV]; omega
      | str s => simp [cellLtV]
      | bool c => cases c <;> simp [cellLtV] <;> omega
      | obj o => simp [cellLtV]
  | str s =>
      cases b with
      | num m => simp [cellLtV]
      | str t => simpa [cellLtV] using strLt_asymm s t
      | bool c => simp [cellLtV]
      | obj o => simpa [cellLtV] using strLt_asymm s "[object Object]"
  | bool c =>
      cases b with
      | num m => cases c <;> simp [cellLtV] <;> omega
      | str t => simp [cellLtV]
      | bool d => cases c <;> cases d <;> simp [cellLtV]
      | obj o => simp [cellLtV]
  | obj o =>
      cases b with
      | num m => simp [cellLtV]
      | str t => simpa [cellLtV] using strLt_asymm "[object Object]" t
      | bool d => simp [cellLtV]
      | obj p => simp [cellLtV]

theorem cellLt_asymm : ∀ a b, cellLt a b = true → cellLt b a = false := by
  intro a b
  cases a with
  | none => simp [cellLt]
  | some x =>
      cases b with
      | none => simp [cellLt]
      | some y => simpa [cellLt] using cellLtV_asymm x y

theorem rowLt_asymm (h : String) (r s : Row) (hrs : rowLt h r s = true) :
    rowLt h s r = false :=
  cellLt_asymm _ _ hrs

theorem rowLe_one (h : String) (r s : Row) : rowLe h 1 r s = !(rowLt h s r) := by
  unfold rowLe rowCmp
  cases hrs : rowLt h s r <;> cases hsr : rowLt h r s <;> simp

/- ## Stability: sorting a list already sorted by a previous key -/

theorem jsInsert_stable (ltA ltB : α → α → Bool) (P : α → Prop)
    (htr : ∀ x y z, P x → P y → P z →
      ltB y x = false → ltB z y = false → ltB z x = false)
    (a : α) (ha : P a) :
    ∀ M : List α, (∀ x ∈ M, P x) →
      M.Pairwise (fun x y =>
        ltB x y = true ∨ (ltB x y = false ∧ ltB y x = false ∧ ltA y x = false)) →
      M.Pairwise (fun x y => ltB y x = false) →
      (∀ x ∈ M, ltA x a = false) →
      (jsInsert (fun x y => !ltB y x) a M).Pairwise (fun x y =>
        ltB x y = true ∨ (ltB x y = false ∧ ltB y x = false ∧ ltA y x = false)) := by
  intro M
  induction M with
  | nil => intro _ _ _ _; simp [jsInsert]
  | cons b t ih =>
      intro hP hT hLe hA
      have hPb : P b := hP b (by simp)
      have hPt : ∀ x ∈ t, P x := fun x hx => hP x (by simp [hx])
      rw [List.pairwise_cons] at hT hLe
      by_cases hba : ltB b a = true
      · -- `a` must go after `b`: result `b :: jsInsert a t`
        have hle : (!ltB b a) = false := by simp [hba]
        simp only [jsInsert, hle, Bool.false_eq_true, if_false]
        rw [List.pairwise_cons]
        refine ⟨?_, ih hPt hT.2 hLe.2 (fun x hx => hA x (by simp [hx]))⟩
        intro y hy
        rcases (mem_jsInsert _ a y t).mp hy with hy | hy
        · rw [hy]; exact Or.inl hba
        · exact hT.1 y hy
      · -- `a` goes first: result `a :: b :: t`
        have hba' : ltB b a = false := by revert hba; cases ltB b a <;> simp
        have hle : (!ltB b a) = true := by simp [hba']
        simp only [jsInsert, hle, if_true]
        rw [List.pairwise_cons]
        refine ⟨?_, List.pairwise_cons.mpr hT⟩
        intro x hx
        have hxa : ltB x a = false := by
          rcases List.mem_cons.mp hx with hx | hx
          · rw [hx]; exact hba'
          · exact htr a b x ha hPb (hPt x hx) hba' (hLe.1 x hx)
        by_cases hax : ltB a x = true
        · exact Or.inl hax
        · have hax' : ltB a x = false := by revert hax; cases ltB a x <;> simp
          exact Or.inr ⟨hax', hxa, hA x hx⟩

theorem jsStableSort_stable (ltA ltB : α → α → Bool) (P : α → Prop)
    (hasym : ∀ x y, ltB x y = true → ltB y x = false)
    (htr : ∀ x y z, P x → P y → P z →
      ltB y x = false → ltB z y = false → ltB z x = false)
    (l : List α) (hP : ∀ x ∈ l, P x)
    (hA : l.Pairwise (fun x y => ltA y x = false)) :
    (jsStableSort (fun x y => !ltB y x) l).Pairwise (fun x y =>
      ltB x y = true ∨ (ltB x y = false ∧ ltB y x = false ∧ ltA y x = false)) := by
  induction l with
  | nil => simp [jsStableSort]
  | cons a t ih =>
      have hPa : P a := hP a (by simp)
      have hPt : ∀ x ∈ t, P x := fun x hx => hP x (by simp [hx])
      rw [List.pairwise_cons] at hA
      have hMP : ∀ x ∈ jsStableSort (fun x y => !ltB y x) t, P x :=
        fun x hx => hPt x ((mem_jsStableSort _ x t).mp hx)
      have htot : ∀ x y, P x → P y → (!ltB y x) = true ∨ (!ltB x y) = true := by
        intro x y _ _
        by_cases hxy : ltB y x = true
        · exact Or.inr (by simp [hasym _ _ hxy])
        · exact Or.inl (by revert hxy; cases ltB y x <;> simp)
      have htr' : ∀ x y z, P x → P y → P z →
          (!ltB y x) = true → (!ltB z y) = true → (!ltB z x) = true := by
        intro x y z hx hy hz h1 h2
        simp only [Bool.not_eq_true'] at h1 h2 ⊢
        exact htr x y z hx hy hz h1 h2
      have hLe := jsStableSort_pairwise (fun x y => !ltB y x) P htot htr' t hPt
      have hLe' : (jsStableSort (fun x y => !ltB y x) t).Pairwise
          (fun x y => ltB y x = false) :=
        hLe.imp (by intro a b hab; simpa using hab)
      exact jsInsert_stable ltA ltB P htr a hPa _ hMP (ih hPt hA.2) hLe'
        (fun x hx => hA.1 x ((mem_jsStableSort _ x t).mp hx))

/- ## Frame lemmas for the pipeline operations -/

theorem updateOrder_frame (s : TableState) (h : String) (c : Int) :
    (updateOrder s h c).sortDirection = s.sortDirection ∧
    (updateOrder s h c).sortInvocationOrder = s.sortInvocationOrder ∧
    (updateOrder s h c).currentPage = s.currentPage ∧
    (updateOrder s h c).maxRows = s.maxRows ∧
    (updateOrder s h c).filters = s.filters := by
  unfold updateOrder
  split <;> simp

theorem foldl_updateOrder_frame : ∀ (l : List String) (s : TableState),
    ((l.foldl (fun t h => updateOrder t h 1) s)).sortDirection = s.sortDirection ∧
    ((l.foldl (fun t h => updateOrder t h 1) s)).sortInvocationOrder = s.sortInvocationOrder ∧
    ((l.foldl (fun t h => updateOrder t h 1) s)).currentPage = s.currentPage ∧
    ((l.foldl (fun t h => updateOrder t h 1) s)).maxRows = s.maxRows ∧
    ((l.foldl (fun t h => updateOrder t h 1) s)).filters = s.filters := by
  intro l
  induction l with
  | nil => intro s; simp
  | cons h t ih =>
      intro s
      have h1 := updateOrder_frame s h 1
      have h2 := ih (updateOrder s h 1)
      simp only [List.foldl_cons]
      exact ⟨h2.1.trans h1.1, h2.2.1.trans h1.2.1, h2.2.2.1.trans h1.2.2.1,
        h2.2.2.2.1.trans h1.2.2.2.1, h2.2.2.2.2.trans h1.2.2.2.2⟩

theorem resortAll_frame (s : TableState) :
    (resortAll s).sortDirection = s.sortDirection ∧
    (resortAll s).sortInvocationOrder = s.sortInvocationOrder ∧
    (resortAll s).currentPage = s.currentPage ∧
    (resortAll s).maxRows = s.maxRows ∧
    (resortAll s).filters = s.filters :=
  foldl_updateOrder_frame s.sortInvocationOrder s

theorem updateFilteredData_frame (s : TableState) :
    (updateFilteredData s).data = s.data ∧
    (updateFilteredData s).sortDirection = s.sortDirection ∧
    (updateFilteredData s).sortInvocationOrder = s.sortInvocationOrder ∧
    (updateFilteredData s).currentPage = 1 ∧
    (updateFilteredData s).maxRows = s.maxRows ∧
    (updateFilteredData s).filters = s.filters := by
  unfold updateFilteredData
  by_cases hf : s.filters.isEmpty <;> simp [hf]

theorem applyModifiers_frame (s : TableState) :
    (applyModifiers s).sortDirection = s.sortDirection ∧
    (applyModifiers s).sortInvocationOrder = s.sortInvocationOrder ∧
    (applyModifiers s).currentPage = 1 ∧
    (applyModifiers s).maxRows = s.maxRows ∧
    (applyModifiers s).filters = s.filters := by
  have h1 := resortAll_frame (updateFilteredData s)
  have h2 := updateFilteredData_frame s
  unfold applyModifiers
  exact ⟨h1.1.trans h2.2.1, h1.2.1.trans h2.2.2.1, h1.2.2.1.trans h2.2.2.2.1,
    h1.2.2.2.1.trans h2.2.2.2.2.1, h1.2.2.2.2.trans h2.2.2.2.2.2⟩

theorem updateOrder_data_of_not_alias (s : TableState) (h : String) (c : Int)
    (ha : s.displayedAliasesData = false) :
    (updateOrder s h c).data = s.data ∧
    (updateOrder s h c).displayedAliasesData = false := by
  unfold updateOrder
  split <;> simp [ha]

theorem foldl_updateOrder_data_of_not_alias : ∀ (l : List String) (s : TableState),
    s.displayedAliasesData = false →
    ((l.foldl (fun t h => updateOrder t h 1) s)).data = s.data ∧
    ((l.foldl (fun t h => updateOrder t h 1) s)).displayedAliasesData = false := by
  intro l
  induction l with
  | nil => intro s hs; simp [hs]
  | cons h t ih =>
      intro s hs
      have h1 := updateOrder_data_of_not_alias s h 1 hs
      have h2 := ih (updateOrder s h 1) h1.2
      simp only [List.foldl_cons]
      exact ⟨h2.1.trans h1.1, h2.2⟩

/- ## Characterizations of the filter recomputation and of a header click -/

theorem updateFilteredData_of_empty (s : TableState) (hf : s.filters = []) :
    (updateFilteredData s).displayed = s.data ∧
    (updateFilteredData s).displayedAliasesData = true := by
  unfold updateFilteredData
  simp [hf]

theorem updateFilteredData_of_ne (s : TableState) (hf : s.filters ≠ []) :
    (updateFilteredData s).displayed =
      s.data.filter (fun r => rowPasses s.filters r) ∧
    (updateFilteredData s).displayedAliasesData = false := by
  unfold updateFilteredData
  have hf' : s.filters.isEmpty = false := by
    cases h : s.filters with
    | nil => exact absurd h hf
    | cons a t => simp
  simp [hf']

theorem applyModifiers_data_of_ne (s : TableState) (hf : s.filters ≠ []) :
    (applyModifiers s).data = s.data ∧
    (applyModifiers s).displayedAliasesData = false := by
  unfold applyModifiers resortAll
  have h1 := updateFilteredData_frame s
  have h2 := updateFilteredData_of_ne s hf
  have h3 := foldl_updateOrder_data_of_not_alias
    (updateFilteredData s).sortInvocationOrder (updateFilteredData s) h2.2
  exact ⟨h3.1.trans h1.1, h3.2⟩

/-- A header click on a column currently in the `'None'` state. -/
theorem toggleSort_of_none (s : TableState) (h : String)
    (hd : lookupAssoc s.sortDirection h = some SortDirection.None) :
    toggleSort s h = { s with
      sortInvocationOrder :=
        (if s.sortInvocationOrder.contains h then s.sortInvocationOrder.erase h
         else s.sortInvocationOrder) ++ [h],
      sortDirection := setAssoc s.sortDirection h SortDirection.Ascending,
      displayed := jsStableSort (rowLe h 1) s.displayed,
      data := if s.displayedAliasesData then jsStableSort (rowLe h 1) s.displayed
              else s.data,
      displayedAliasesData := false } := by
  unfold toggleSort getOrderCorrection updateOrder
  simp [hd, lookup_setAssoc_self]

/-- A header click on a column currently in the `'Ascending'` state. -/
theorem toggleSort_of_asc (s : TableState) (h : String)
    (hd : lookupAssoc s.sortDirection h = some SortDirection.Ascending) :
    toggleSort s h = { s with
      sortInvocationOrder :=
        (if s.sortInvocationOrder.contains h then s.sortInvocationOrder.erase h
         else s.sortInvocationOrder) ++ [h],
      sortDirection := setAssoc s.sortDirection h SortDirection.Descending,
      displayed := jsStableSort (rowLe h (-1)) s.displayed,
      data := if s.displayedAliasesData then jsStableSort (rowLe h (-1)) s.displayed
              else s.data,
      displayedAliasesData := false } := by
  unfold toggleSort getOrderCorrection updateOrder
  simp [hd, lookup_setAssoc_self]

/-- A header click on a column key absent from the `sortDirection` map:
`getOrderCorrection` matches no switch case (returning `undefined`, so
`updateOrder`'s default correction `1` applies) and the direction entry is
never created. -/
theorem toggleSort_of_absent (s : TableState) (h : String)
    (hd : lookupAssoc s.sortDirection h = Option.none) :
    toggleSort s h = { s with
      sortInvocationOrder :=
        (if s.sortInvocationOrder.contains h then s.sortInvocationOrder.erase h
         else s.sortInvocationOrder) ++ [h],
      displayed := jsStableSort (rowLe h 1) s.displayed,
      data := if s.displayedAliasesData then jsStableSort (rowLe h 1) s.displayed
              else s.data,
      displayedAliasesData := false } := by
  unfold toggleSort getOrderCorrection updateOrder
  simp [hd]

/-- A header click on a column currently in the `'Descending'` state: the
direction returns to `'None'`, the key is removed from the invocation order
(it had just been pushed to the end), and `applyModifiers` reruns the whole
pipeline; the final `updateOrder` call is a no-op since the direction is now
`'None'`. -/
theorem toggleSort_of_desc (s : TableState) (h : String)
    (hd : lookupAssoc s.sortDirection h = some SortDirection.Descending) :
    toggleSort s h = applyModifiers { s with
      sortDirection := setAssoc s.sortDirection h SortDirection.None,
      sortInvocationOrder :=
        ((if s.sortInvocationOrder.contains h then s.sortInvocationOrder.erase h
          else s.sortInvocationOrder) ++ [h]).erase h } := by
  unfold toggleSort getOrderCorrection
  simp only [hd]
  have hc : (((if s.sortInvocationOrder.contains h then s.sortInvocationOrder.erase h
      else s.sortInvocationOrder) ++ [h])).contains h = true := by
    simp [List.elem_iff]
  unfold spliceAtIndexOf
  simp only [hc, if_true]
  set s2 : TableState := { s with
      sortDirection := setAssoc s.sortDirection h SortDirection.None,
      sortInvocationOrder :=
        ((if s.sortInvocationOrder.contains h then s.sortInvocationOrder.erase h
          else s.sortInvocationOrder) ++ [h]).erase h } with hs2
  have hlook : lookupAssoc (applyModifiers s2).sortDirection h =
      some SortDirection.None := by
    rw [(applyModifiers_frame s2).1, hs2]
    simp [lookup_setAssoc_self]
  unfold updateOrder
  simp [hlook]

/- ## Arithmetic helpers for the paginator -/

theorem ceilDiv_bounds (a b : Nat) (hb : 1 ≤ b) :
    a ≤ b * ((a + b - 1) / b) ∧ b * ((a + b - 1) / b) < a + b := by
  have hdm := Nat.div_add_mod (a + b - 1) b
  have hmod : (a + b - 1) % b < b := Nat.mod_lt _ (by omega)
  generalize hq : b * ((a + b - 1) / b) = x at hdm ⊢
  generalize hr : (a + b - 1) % b = r at hdm hmod
  omega

theorem one_le_ceilDiv (a b : Nat) (hb : 1 ≤ b) (ha : 1 ≤ a) :
    1 ≤ (a + b - 1) / b := by
  rw [Nat.le_div_iff_mul_le (by omega : 0 < b)]
  omega

/- ## Helpers for maps and filters -/

theorem contains_eq_mem (l : List String) (h : String) :
    l.contains h = true ↔ h ∈ l := by
  simp [List.elem_iff]

theorem lookupAssoc_mem {β : Type} (m : List (String × β)) (k : String) (v : β)
    (h : lookupAssoc m k = some v) : (k, v) ∈ m := by
  induction m with
  | nil => simp [lookupAssoc] at h
  | cons p t ih =>
      obtain ⟨k', v'⟩ := p
      by_cases hk : k' = k
      · subst hk
        simp [lookupAssoc] at h
        simp [h]
      · simp [lookupAssoc, hk] at h
        simp [ih h]

theorem setAssoc_values_false (m : ExpMap) (k : String)
    (hm : ∀ p ∈ m, p.2 = false) : ∀ p ∈ setAssoc m k false, p.2 = false := by
  induction m with
  | nil => simp [setAssoc]
  | cons q t ih =>
      obtain ⟨k', v'⟩ := q
      by_cases hk : k' = k
      · intro p hp
        simp only [setAssoc, hk, if_true] at hp
        rcases List.mem_cons.mp hp with hp | hp
        · simp [hp]
        · exact hm p (by simp [hp])
      · intro p hp
        simp only [setAssoc, hk, if_false] at hp
        rcases List.mem_cons.mp hp with hp | hp
        · exact hm p (by simp [hp])
        · exact ih (fun q hq => hm q (by simp [hq])) p hp

theorem initExpandedRows_values_false (data : List Row) (idKey : String) :
    ∀ p ∈ initExpandedRows data idKey, p.2 = false := by
  unfold initExpandedRows
  suffices H : ∀ (l : List Row) (m : ExpMap), (∀ p ∈ m, p.2 = false) →
      ∀ p ∈ l.foldl (fun m r => setAssoc m (jsKeyString (getCell r idKey)) false) m,
        p.2 = false from H data [] (by simp)
  intro l
  induction l with
  | nil => intro m hm; simpa using hm
  | cons r t ih =>
      intro m hm
      simp only [List.foldl_cons]
      exact ih _ (setAssoc_values_false m _ hm)

theorem isExpandedKey_init (data : List Row) (idKey : String) (k : String) :
    isExpandedKey (initExpandedRows data idKey) k = false := by
  unfold isExpandedKey
  cases hg : lookupAssoc (initExpandedRows data idKey) k with
  | none => simp
  | some b =>
      have := initExpandedRows_values_false data idKey _ (lookupAssoc_mem _ _ _ hg)
      simpa using this

theorem rowPasses_nil (r : Row) : rowPasses [] r = true := by
  unfold rowPasses
  simp only [lookupAssoc]
  simp

theorem count_filter_eq (p : Row → Bool) (l : List Row) (a : Row) :
    (l.filter p).count a = if p a = true then l.count a else 0 := by
  induction l with
  | nil => simp
  | cons x t ih =>
      rw [List.filter_cons]
      by_cases hx : p x = true
      · simp only [hx, if_true]
        rw [List.count_cons, List.count_cons, ih]
        by_cases hxa : a = x
        · subst hxa; simp [hx]
        · have hxa' : ¬ x = a := fun hh => hxa hh.symm
          simp [hxa']
      · have hx' : p x = false := by revert hx; cases p x <;> simp
        simp only [hx', Bool.false_eq_true, if_false]
        rw [ih, List.count_cons]
        by_cases hxa : a = x
        · subst hxa; simp [hx']
        · have hxa' : ¬ x = a := fun hh => hxa hh.symm
          simp [hxa']

/- ## Claim C1 -/

/-- C1: The claim states that the no-argument pipeline recomputation
(`applyModifiers`, triggered by a filter or data change) re-applies each
active column's comparison with the stored direction multiplier (`+1`
Ascending, `-1` Descending), so a Descending column stays descending.
The code refutes this: the resort loop `for (header of sortInvocationOrder)
updateOrder(header)` omits the correction argument, so the default `+1`
applies.  At the state reached by toggling column `a` twice (direction
Descending, displayed in descending order `[2, 1]`), the recomputation
re-sorts ascending to `[1, 2]` while the stored direction is still
Descending — `c1rowB` (value 1) is displayed before `c1rowA` (value 2). -/
theorem c1_resort_ignores_stored_direction :
    c1afterToggles.displayed = [c1rowA, c1rowB] ∧
    lookupAssoc c1afterToggles.sortDirection "a" = some SortDirection.Descending ∧
    (applyModifiers c1afterToggles).displayed = [c1rowB, c1rowA] ∧
    lookupAssoc (applyModifiers c1afterToggles).sortDirection "a" =
      some SortDirection.Descending ∧
    rowLt "a" c1rowB c1rowA = true := by
  decide

/- ## Claim C2 -/

/-- C2 (counterexample): the claim states that a toggle on an Ascending
column (transition into Descending) leaves the column's position in the
invocation order unchanged.  Toggling `h1`, then `h2`, then `h1` again
(Ascending → Descending) yields the order `["h2", "h1"]`: the code removes
the key and re-pushes it to the end before reading the tri-state, so the
toggled column does move to the end rather than staying at the front. -/
theorem c2_descending_toggle_repositions :
    (toggleSort (toggleSort (mountState ["h1", "h2"] [] [] Option.none) "h1")
      "h2").sortInvocationOrder = ["h1", "h2"] ∧
    c2final.sortInvocationOrder = ["h2", "h1"] ∧
    lookupAssoc c2final.sortDirection "h1" = some SortDirection.Descending ∧
    c2final.sortInvocationOrder ≠ ["h1", "h2"] := by
  decide

/-- C2 (amended): on a toggle of an Ascending column, the column is moved to
the end of the invocation-order sequence (the other active columns keep
their relative positions, as expressed by `List.erase`), and the column's
direction becomes Descending. -/
theorem c2_ascending_toggle_moves_to_end (s : TableState) (h : String)
    (hd : lookupAssoc s.sortDirection h = some SortDirection.Ascending) :
    (toggleSort s h).sortInvocationOrder = s.sortInvocationOrder.erase h ++ [h] ∧
    lookupAssoc (toggleSort s h).sortDirection h = some SortDirection.Descending := by
  rw [toggleSort_of_asc s h hd]
  constructor
  · show (if s.sortInvocationOrder.contains h then s.sortInvocationOrder.erase h
      else s.sortInvocationOrder) ++ [h] = s.sortInvocationOrder.erase h ++ [h]
    by_cases hc : s.sortInvocationOrder.contains h = true
    · rw [if_pos hc]
    · have hm : h ∉ s.sortInvocationOrder := fun hmem =>
        hc ((contains_eq_mem _ _).mpr hmem)
      rw [if_neg hc, List.erase_of_not_mem hm]
  · simp [lookup_setAssoc_self]

/-- C2 (witness): the amended theorem applied at a concrete state with two
Ascending columns in order `["h1", "h2"]`; toggling `h1` yields `["h2", "h1"]`. -/
theorem c2_witness :
    (toggleSort c2wState "h1").sortInvocationOrder =
      c2wState.sortInvocationOrder.erase "h1" ++ ["h1"] ∧
    lookupAssoc (toggleSort c2wState "h1").sortDirection "h1" =
      some SortDirection.Descending :=
  c2_ascending_toggle_moves_to_end c2wState "h1" (by decide)

/- ## Claim C4 -/

/-- C4 (counterexample): the claim states `maxPage = ceil(totalRows /
pageSize)` with a minimum of 1, in particular `maxPage = 1` when
`totalRows = 0`.  The code computes `Math.ceil(0 / 5) = 0` with no floor:
on an empty displayed set with `maxRows = 5`, `paginatorMaxPage` is `0`,
and the `⇥` (last page) button then sets `currentPage` to `0`, outside
`[1, maxPage]` under any reading. -/
theorem c4_maxPage_zero_on_empty :
    c4emptyState.displayed.length = 0 ∧
    paginatorMaxPage c4emptyState = 0 ∧
    paginatorMaxPage c4emptyState ≠ 1 ∧
    (pageLast c4emptyState).currentPage = 0 := by
  decide

/-- C4 (amended): for a positive page size `m`, `paginatorMaxPage` is the
exact ceiling of `totalRows / m` (characterized by the two multiplicative
bounds) with no minimum of 1; when at least one row is displayed it is at
least 1 and then each of the four paginator buttons keeps `currentPage`
inside `[1, paginatorMaxPage]` (no operation throws: all are total). -/
theorem c4_maxPage_ceil_and_nav_clamp (s : TableState) (m cp : Nat)
    (hm : s.maxRows = some m) (h1m : 1 ≤ m) (hlen : 1 ≤ s.displayed.length)
    (hcp1 : 1 ≤ cp) (hcpM : cp ≤ paginatorMaxPage s) :
    s.displayed.length ≤ m * paginatorMaxPage s ∧
    m * paginatorMaxPage s < s.displayed.length + m ∧
    1 ≤ paginatorMaxPage s ∧
    (pageFirst (setPage s cp)).currentPage = 1 ∧
    (pageFirst (setPage s cp)).currentPage ≤ paginatorMaxPage s ∧
    1 ≤ (pagePrev (setPage s cp)).currentPage ∧
    (pagePrev (setPage s cp)).currentPage ≤ paginatorMaxPage s ∧
    1 ≤ (pageNext (setPage s cp)).currentPage ∧
    (pageNext (setPage s cp)).currentPage ≤ paginatorMaxPage s ∧
    1 ≤ (pageLast (setPage s cp)).currentPage ∧
    (pageLast (setPage s cp)).currentPage ≤ paginatorMaxPage s := by
  have hmp : paginatorMaxPage s = (s.displayed.length + m - 1) / m := by
    unfold paginatorMaxPage
    rw [hm]
    simp
  have hb := ceilDiv_bounds s.displayed.length m h1m
  have h1 : 1 ≤ paginatorMaxPage s := by
    rw [hmp]; exact one_le_ceilDiv _ _ h1m hlen
  have hnav : paginatorMaxPage (setPage s cp) = paginatorMaxPage s := rfl
  refine ⟨by rw [hmp]; exact hb.1, by rw [hmp]; exact hb.2, h1, rfl, h1, ?_, ?_, ?_, ?_, ?_, ?_⟩
  · show 1 ≤ max (cp - 1) 1
    omega
  · show max (cp - 1) 1 ≤ paginatorMaxPage s
    omega
  · show 1 ≤ min (cp + 1) (paginatorMaxPage (setPage s cp))
    rw [hnav]; omega
  · show min (cp + 1) (paginatorMaxPage (setPage s cp)) ≤ paginatorMaxPage s
    rw [hnav]; omega
  · show 1 ≤ paginatorMaxPage (setPage s cp)
    rw [hnav]; exact h1
  · show paginatorMaxPage (setPage s cp) ≤ paginatorMaxPage s
    rw [hnav]

/-- C4 (witness): the amended theorem applied at a state displaying 3 rows
with page size 2 (`paginatorMaxPage = 2`) from page 2. -/
theorem c4_witness :
    c4wState.displayed.length ≤ 2 * paginatorMaxPage c4wState ∧
    2 * paginatorMaxPage c4wState < c4wState.displayed.length + 2 ∧
    1 ≤ paginatorMaxPage c4wState ∧
    (pageFirst (setPage c4wState 2)).currentPage = 1 ∧
    (pageFirst (setPage c4wState 2)).currentPage ≤ paginatorMaxPage c4wState ∧
    1 ≤ (pagePrev (setPage c4wState 2)).currentPage ∧
    (pagePrev (setPage c4wState 2)).currentPage ≤ paginatorMaxPage c4wState ∧
    1 ≤ (pageNext (setPage c4wState 2)).currentPage ∧
    (pageNext (setPage c4wState 2)).currentPage ≤ paginatorMaxPage c4wState ∧
    1 ≤ (pageLast (setPage c4wState 2)).currentPage ∧
    (pageLast (setPage c4wState 2)).currentPage ≤ paginatorMaxPage c4wState :=
  c4_maxPage_ceil_and_nav_clamp c4wState 2 2 (by decide) (by decide) (by decide)
    (by decide) (by decide)

/- ## Claim C5 -/

/-- C5 (counterexample): the claim states that a row lacking the identity
key is excluded from expansion tracking and is never expandable.  The code
instead tracks it under the coerced JS property key `"undefined"`: the
seeded map for one id-less row is `[("undefined", false)]`, and clicking
that row's expander renders it expanded. -/
theorem c5_undefined_row_is_expandable :
    getCell c5row "id" = Option.none ∧
    initExpandedRows [c5row] "id" = [("undefined", false)] ∧
    isRowExpanded (clickExpander (initExpandedRows [c5row] "id") "id" c5row)
      "id" c5row = true := by
  decide

/-- C5 (amended): rows lacking the identity key are all tracked under the
single shared key `"undefined"`, initially collapsed; clicking such a row's
expander toggles the shared flag, so the row — and every other
identity-missing row — renders expanded.  No error is raised (all
operations are total). -/
theorem c5_undefined_rows_share_flag (data : List Row) (idKey : String) (r : Row)
    (hr : getCell r idKey = Option.none) :
    isRowExpanded (initExpandedRows data idKey) idKey r = false ∧
    (∀ r' : Row, getCell r' idKey = Option.none →
      isRowExpanded (clickExpander (initExpandedRows data idKey) idKey r)
        idKey r' = true) := by
  have hkey : rowIdKeyStr idKey r = "undefined" := by
    simp [rowIdKeyStr, hr, jsKeyString]
  have hfalse : isExpandedKey (initExpandedRows data idKey) "undefined" = false :=
    isExpandedKey_init data idKey "undefined"
  constructor
  · unfold isRowExpanded
    rw [hkey]
    exact hfalse
  · intro r' hr'
    have hkey' : rowIdKeyStr idKey r' = "undefined" := by
      simp [rowIdKeyStr, hr', jsKeyString]
    unfold isRowExpanded clickExpander toggleExpanded isExpandedKey
    rw [hkey, hkey', lookup_setAssoc_self]
    unfold isExpandedKey at hfalse
    simp [hfalse]

/-- C5 (witness): the amended theorem at one concrete id-less row. -/
theorem c5_witness :
    isRowExpanded (initExpandedRows [c5row] "id") "id" c5row = false ∧
    isRowExpanded (clickExpander (initExpandedRows [c5row] "id") "id" c5row)
      "id" c5row = true := by
  have h := c5_undefined_rows_share_flag [c5row] "id" c5row (by decide)
  exact ⟨h.1, h.2 c5row (by decide)⟩

/- ## Claim C8 -/

/-- C8 (counterexample): the claim asserts that, given unique identity
values across rows, toggling one row's expansion never changes another
row's `isExpanded`.  The expansion map is keyed by the JS string coercion of
the identity value: the distinct values `1` (number) and `"1"` (string)
coerce to the same property key `"1"`, so `Object.fromEntries` seeds a
single shared entry and clicking the first row's expander flips the second
row from collapsed to expanded. -/
theorem c8_string_key_collision :
    c8rowA ≠ c8rowB ∧
    getCell c8rowA "id" ≠ getCell c8rowB "id" ∧
    initExpandedRows [c8rowA, c8rowB] "id" = [("1", false)] ∧
    isRowExpanded (initExpandedRows [c8rowA, c8rowB] "id") "id" c8rowB = false ∧
    isRowExpanded (clickExpander (initExpandedRows [c8rowA, c8rowB] "id") "id"
      c8rowA) "id" c8rowB = true := by
  decide

/-- C8 (amended): toggling a row's expansion twice returns its `isExpanded`
to the original value (for identities present in the map), and toggling one
row never changes `isExpanded` of a row whose identity has a *different
string representation* (the map is keyed by the JS string coercion of the
identity value, so value-uniqueness alone is not enough). -/
theorem c8_toggle_involutive_and_local :
    (∀ (m : ExpMap) (idKey : String) (r : Row),
      (lookupAssoc m (rowIdKeyStr idKey r)).isSome = true →
      isRowExpanded (clickExpander (clickExpander m idKey r) idKey r) idKey r =
        isRowExpanded m idKey r) ∧
    (∀ (m : ExpMap) (idKey : String) (r r' : Row),
      rowIdKeyStr idKey r ≠ rowIdKeyStr idKey r' →
      isRowExpanded (clickExpander m idKey r) idKey r' =
        isRowExpanded m idKey r') := by
  constructor
  · intro m idKey r _
    unfold isRowExpanded clickExpander toggleExpanded isExpandedKey
    rw [lookup_setAssoc_self, lookup_setAssoc_self]
    simp
  · intro m idKey r r' hne
    unfold isRowExpanded clickExpander toggleExpanded isExpandedKey
    rw [lookup_setAssoc_ne _ _ _ _ (Ne.symm hne)]

/-- C8 (witness): double-toggling row id `1` restores its state, and a
toggle of id `1` does not affect id `2`. -/
theorem c8_witness :
    isRowExpanded (clickExpander (clickExpander [("1", false)] "id" c8rowA)
      "id" c8rowA) "id" c8rowA = isRowExpanded [("1", false)] "id" c8rowA ∧
    isRowExpanded (clickExpander [("1", false), ("2", false)] "id" c8rowA)
      "id" c8rowC = isRowExpanded [("1", false), ("2", false)] "id" c8rowC :=
  ⟨c8_toggle_involutive_and_local.1 [("1", false)] "id" c8rowA (by decide),
   c8_toggle_involutive_and_local.2 [("1", false), ("2", false)] "id" c8rowA
     c8rowC (by decide)⟩

/- ## Claim C9 -/

/-- C9 (counterexample): the claim's consequence — a filter/data change can
never leave `currentPage` past the new `maxPage` — fails when the new
filtered view is empty: `currentPage` is reset to 1 but `paginatorMaxPage`
is `Math.ceil(0 / 5) = 0`, so `currentPage` exceeds it. -/
theorem c9_empty_result_page_exceeds_max :
    (changeProps c9start [] []).currentPage = 1 ∧
    paginatorMaxPage (changeProps c9start [] []) = 0 ∧
    paginatorMaxPage (changeProps c9start [] []) <
      (changeProps c9start [] []).currentPage := by
  decide

/-- C9 (amended): every change to the filter spec or the source data resets
`currentPage` to 1 (the first statement of `updateFilteredData`, executed
before the new filtered view is computed); whenever the new filtered view is
nonempty (and a positive page size is set), the reset page 1 is within
`[1, paginatorMaxPage]`. -/
theorem c9_change_resets_page (s : TableState) (nd : List Row) (nf : FilterSpec)
    (m : Nat) (hm : s.maxRows = some m) (h1m : 1 ≤ m)
    (hne : 1 ≤ (changeProps s nd nf).displayed.length) :
    (changeProps s nd nf).currentPage = 1 ∧
    (changeProps s nd nf).currentPage ≤ paginatorMaxPage (changeProps s nd nf) := by
  have hcp : (changeProps s nd nf).currentPage = 1 :=
    (applyModifiers_frame _).2.2.1
  have hmr : (changeProps s nd nf).maxRows = some m := by
    unfold changeProps
    rw [(applyModifiers_frame _).2.2.2.1]
    exact hm
  refine ⟨hcp, ?_⟩
  rw [hcp]
  unfold paginatorMaxPage
  rw [hmr]
  simp only [Option.getD_some]
  exact one_le_ceilDiv _ m h1m hne

/-- C9 (witness): changing the data to a one-row list with page size 5
resets to page 1 and `1 ≤ paginatorMaxPage = 1`. -/
theorem c9_witness :
    (changeProps c9start [c9row] []).currentPage = 1 ∧
    (changeProps c9start [c9row] []).currentPage ≤
      paginatorMaxPage (changeProps c9start [c9row] []) :=
  c9_change_resets_page c9start [c9row] [] 5 (by decide) (by decide) (by decide)

/- ## Claim C6 -/

/-- C6: the filter output is a subsequence of the input (order preserved),
containing exactly the input rows that satisfy the filter predicate: each
row occurs exactly as often as in the input when it passes and never when it
does not (no duplication, no new rows, values untouched — rows are compared
as whole values).  With no filter keys the data passes through unchanged and
every row vacuously passes. -/
theorem c6_filter_is_ordered_subsequence (s : TableState) :
    ((updateFilteredData s).displayed).Sublist s.data ∧
    (∀ r : Row, r ∈ (updateFilteredData s).displayed ↔
      r ∈ s.data ∧ rowPasses s.filters r = true) ∧
    (∀ r : Row, ((updateFilteredData s).displayed).count r =
      if rowPasses s.filters r = true then s.data.count r else 0) := by
  by_cases hf : s.filters = []
  · have h := updateFilteredData_of_empty s hf
    rw [h.1, hf]
    refine ⟨List.Sublist.refl _, ?_, ?_⟩
    · intro r; simp [rowPasses_nil]
    · intro r; simp [rowPasses_nil]
  · have h := updateFilteredData_of_ne s hf
    rw [h.1]
    refine ⟨List.filter_sublist _, ?_, ?_⟩
    · intro r; simp [List.mem_filter]
    · intro r; exact count_filter_eq _ _ _

/- ## Claim C10 -/

/-- C10: with no filter keys, `updateFilteredData` assigns `props.data`
itself to the displayed view (`displayedData.value = props.data`, an alias,
not a copy), so the in-place `Array.prototype.sort` of the next sort toggle
permutes the caller's source array: afterwards `data` equals the freshly
sorted displayed sequence and is a permutation of the old source.  With at
least one filter key, the displayed view is a fresh `filter` result and any
sort toggle leaves the source sequence unchanged. -/
theorem c10_aliasing_sort_mutates_source :
    (∀ s : TableState, s.filters = [] →
      (updateFilteredData s).displayedAliasesData = true ∧
      (updateFilteredData s).displayed = s.data) ∧
    (∀ (s : TableState) (h : String),
      s.displayedAliasesData = true → s.displayed = s.data →
      lookupAssoc s.sortDirection h = some SortDirection.None →
      (toggleSort s h).data = jsStableSort (rowLe h 1) s.data ∧
      ((toggleSort s h).data).Perm s.data ∧
      (toggleSort s h).data = (toggleSort s h).displayed) ∧
    (∀ s : TableState, s.filters ≠ [] →
      (updateFilteredData s).displayedAliasesData = false ∧
      (updateFilteredData s).data = s.data) ∧
    (∀ (s : TableState) (h : String),
      s.filters ≠ [] → s.displayedAliasesData = false →
      (toggleSort s h).data = s.data) := by
  refine ⟨?_, ?_, ?_, ?_⟩
  · intro s hf
    exact ⟨(updateFilteredData_of_empty s hf).2, (updateFilteredData_of_empty s hf).1⟩
  · intro s h halias hdisp hd
    rw [toggleSort_of_none s h hd]
    refine ⟨by simp [halias, hdisp], ?_, by simp [halias]⟩
    have hperm := jsStableSort_perm (rowLe h 1) s.data
    simpa [halias, hdisp] using hperm
  · intro s hf
    exact ⟨(updateFilteredData_of_ne s hf).2, (updateFilteredData_frame s).1⟩
  · intro s h hf halias
    cases hd : lookupAssoc s.sortDirection h with
    | none =>
        rw [toggleSort_of_absent s h hd]
        simp [halias]
    | some d =>
        cases d with
        | None =>
            rw [toggleSort_of_none s h hd]
            simp [halias]
        | Ascending =>
            rw [toggleSort_of_asc s h hd]
            simp [halias]
        | Descending =>
            rw [toggleSort_of_desc s h hd]
            exact (applyModifiers_data_of_ne { s with
              sortDirection := setAssoc s.sortDirection h SortDirection.None,
              sortInvocationOrder :=
                ((if s.sortInvocationOrder.contains h then
                    s.sortInvocationOrder.erase h
                  else s.sortInvocationOrder) ++ [h]).erase h } hf).1

/-- C10 (witness): the four parts instantiated on a two-row table sorted on
column `b`, once with an empty filter spec (source array mutated by the
toggle) and once with one filter key (source array untouched). -/
theorem c10_witness :
    ((updateFilteredData (initState ["b"] [c10row1, c10row2] [] Option.none)).displayedAliasesData
        = true ∧
      (updateFilteredData (initState ["b"] [c10row1, c10row2] [] Option.none)).displayed
        = (initState ["b"] [c10row1, c10row2] [] Option.none).data) ∧
    ((toggleSort c10unfiltered "b").data =
        jsStableSort (rowLe "b" 1) c10unfiltered.data ∧
      ((toggleSort c10unfiltered "b").data).Perm c10unfiltered.data ∧
      (toggleSort c10unfiltered "b").data = (toggleSort c10unfiltered "b").displayed) ∧
    ((updateFilteredData (initState ["b"] [c10row1, c10row2]
        [("b", FilterVal.str "")] Option.none)).displayedAliasesData = false ∧
      (updateFilteredData (initState ["b"] [c10row1, c10row2]
        [("b", FilterVal.str "")] Option.none)).data
        = (initState ["b"] [c10row1, c10row2] [("b", FilterVal.str "")] Option.none).data) ∧
    (toggleSort c10filtered "b").data = c10filtered.data := by
  refine ⟨?_, ?_, ?_, ?_⟩
  · exact c10_aliasing_sort_mutates_source.1
      (initState ["b"] [c10row1, c10row2] [] Option.none) rfl
  · exact c10_aliasing_sort_mutates_source.2.1 c10unfiltered "b"
      (by decide) (by decide) (by decide)
  · exact c10_aliasing_sort_mutates_source.2.2.1
      (initState ["b"] [c10row1, c10row2] [("b", FilterVal.str "")] Option.none)
      (by intro hh
          exact List.noConfusion
            (show ([("b", FilterVal.str "")] : FilterSpec) = [] from hh))
  · exact c10_aliasing_sort_mutates_source.2.2.2 c10filtered "b"
      (by intro hh
          exact List.noConfusion
            (show ([("b", FilterVal.str "")] : FilterSpec) = [] from hh))
      (by decide)

/- ## Claim C7: sort-state invariant -/

theorem SDOk_congr (s1 s2 : TableState) (keys : List String)
    (hd : s1.sortDirection = s2.sortDirection)
    (ho : s1.sortInvocationOrder = s2.sortInvocationOrder)
    (h : SDOk s2 keys) : SDOk s1 keys := by
  unfold SDOk at h ⊢
  rw [hd, ho]
  exact h

theorem SDOk_mount (keys : List String) (data : List Row) (fs : FilterSpec)
    (mr : Option Nat) : SDOk (mountState keys data fs mr) keys := by
  have hd : (mountState keys data fs mr).sortDirection = initSortDirection keys :=
    (updateFilteredData_frame _).2.1
  have ho : (mountState keys data fs mr).sortInvocationOrder = [] :=
    (updateFilteredData_frame _).2.2.1
  refine ⟨?_, ?_, ?_⟩
  · rw [ho]; exact List.nodup_nil
  · intro h
    rw [ho, hd, lookup_initSortDirection]
    constructor
    · intro hh; simp at hh
    · intro hh
      by_cases hk : h ∈ keys <;> simp [hk] at hh
  · intro h
    rw [hd, lookup_initSortDirection]
    by_cases hk : h ∈ keys <;> simp [hk]

theorem SDOk_toggle (s : TableState) (keys : List String) (h : String)
    (hs : SDOk s keys) (hk : h ∈ keys) : SDOk (toggleSort s h) keys := by
  obtain ⟨hnd, hmem, hdom⟩ := hs
  have hsome : (lookupAssoc s.sortDirection h).isSome := (hdom h).mpr hk
  cases hd : lookupAssoc s.sortDirection h with
  | none => rw [hd] at hsome; simp at hsome
  | some d =>
    cases d with
    | None =>
        have hno : h ∉ s.sortInvocationOrder := by
          intro hmm
          rcases (hmem h).mp hmm with hh | hh <;> rw [hd] at hh <;> simp at hh
        have hcond : ¬ (s.sortInvocationOrder.contains h = true) :=
          fun hcc => hno ((contains_eq_mem _ _).mp hcc)
        rw [toggleSort_of_none s h hd]
        refine ⟨?_, ?_, ?_⟩
        · show ((if s.sortInvocationOrder.contains h then s.sortInvocationOrder.erase h
            else s.sortInvocationOrder) ++ [h]).Nodup
          rw [if_neg hcond]
          simp [List.nodup_append, hnd, hno]
        · intro h'
          show h' ∈ (if s.sortInvocationOrder.contains h then s.sortInvocationOrder.erase h
              else s.sortInvocationOrder) ++ [h] ↔ _
          rw [if_neg hcond]
          by_cases hh' : h' = h
          · subst hh'
            simp [lookup_setAssoc_self]
          · rw [lookup_setAssoc_ne _ _ _ _ hh']
            simp only [List.mem_append, List.mem_singleton, hh', or_false]
            exact hmem h'
        · intro h'
          show (lookupAssoc (setAssoc s.sortDirection h SortDirection.Ascending) h').isSome
            ↔ h' ∈ keys
          rw [Bool.eq_iff_iff.mp (isSome_lookup_setAssoc s.sortDirection h h' _)]
          by_cases hh' : h' = h
          · subst hh'; simp [hk]
          · simp [hh', hdom h']
    | Ascending =>
        have hyes : h ∈ s.sortInvocationOrder := (hmem h).mpr (Or.inl hd)
        have hcond : s.sortInvocationOrder.contains h = true :=
          (contains_eq_mem _ _).mpr hyes
        rw [toggleSort_of_asc s h hd]
        refine ⟨?_, ?_, ?_⟩
        · show ((if s.sortInvocationOrder.contains h then s.sortInvocationOrder.erase h
            else s.sortInvocationOrder) ++ [h]).Nodup
          rw [if_pos hcond]
          have hne : h ∉ s.sortInvocationOrder.erase h := by
            intro hmm
            exact absurd ((hnd.mem_erase_iff).mp hmm).1 (by simp)
          simp [List.nodup_append, hnd.erase h, hne]
        · intro h'
          show h' ∈ (if s.sortInvocationOrder.contains h then s.sortInvocationOrder.erase h
              else s.sortInvocationOrder) ++ [h] ↔ _
          rw [if_pos hcond]
          by_cases hh' : h' = h
          · subst hh'
            simp [lookup_setAssoc_self]
          · rw [lookup_setAssoc_ne _ _ _ _ hh']
            simp only [List.mem_append, List.mem_singleton, hh', or_false]
            rw [hnd.mem_erase_iff]
            simp only [hh', true_and, ne_eq, not_false_iff]
            exact hmem h'
        · intro h'
          show (lookupAssoc (setAssoc s.sortDirection h SortDirection.Descending) h').isSome
            ↔ h' ∈ keys
          rw [Bool.eq_iff_iff.mp (isSome_lookup_setAssoc s.sortDirection h h' _)]
          by_cases hh' : h' = h
          · subst hh'; simp [hk]
          · simp [hh', hdom h']
    | Descending =>
        have hyes : h ∈ s.sortInvocationOrder := (hmem h).mpr (Or.inr hd)
        have hcond : s.sortInvocationOrder.contains h = true :=
          (contains_eq_mem _ _).mpr hyes
        have hne : h ∉ s.sortInvocationOrder.erase h := by
          intro hmm
          exact absurd ((hnd.mem_erase_iff).mp hmm).1 (by simp)
        have horder : ((if s.sortInvocationOrder.contains h then
            s.sortInvocationOrder.erase h else s.sortInvocationOrder) ++ [h]).erase h
            = s.sortInvocationOrder.erase h := by
          rw [if_pos hcond, List.erase_append_right _ hne]
          simp
        rw [toggleSort_of_desc s h hd]
        apply SDOk_congr _ { s with
            sortDirection := setAssoc s.sortDirection h SortDirection.None,
            sortInvocationOrder :=
              ((if s.sortInvocationOrder.contains h then s.sortInvocationOrder.erase h
                else s.sortInvocationOrder) ++ [h]).erase h } keys
          (applyModifiers_frame _).1 (applyModifiers_frame _).2.1
        refine ⟨?_, ?_, ?_⟩
        · show (((if s.sortInvocationOrder.contains h then s.sortInvocationOrder.erase h
            else s.sortInvocationOrder) ++ [h]).erase h).Nodup
          rw [horder]
          exact hnd.erase h
        · intro h'
          show h' ∈ ((if s.sortInvocationOrder.contains h then s.sortInvocationOrder.erase h
              else s.sortInvocationOrder) ++ [h]).erase h ↔ _
          rw [horder]
          by_cases hh' : h' = h
          · subst hh'
            simp [lookup_setAssoc_self, hne]
          · rw [lookup_setAssoc_ne _ _ _ _ hh']
            rw [hnd.mem_erase_iff]
            simp only [hh', true_and, ne_eq, not_false_iff]
            exact hmem h'
        · intro h'
          show (lookupAssoc (setAssoc s.sortDirection h SortDirection.None) h').isSome
            ↔ h' ∈ keys
          rw [Bool.eq_iff_iff.mp (isSome_lookup_setAssoc s.sortDirection h h' _)]
          by_cases hh' : h' = h
          · subst hh'; simp [hk]
          · simp [hh', hdom h']

theorem SDOk_change (s : TableState) (keys : List String) (nd : List Row)
    (nf : FilterSpec) (hs : SDOk s keys) : SDOk (changeProps s nd nf) keys := by
  unfold changeProps
  apply SDOk_congr _ { s with data := nd, filters := nf } keys
    (applyModifiers_frame _).1 (applyModifiers_frame _).2.1
  exact hs

/-- C7 (counterexample): the claim extends the tri-state/invocation-order
invariant to columns not present when the sort-state map was initialized.
Toggling such a column (`"h2"` with initial headers `["h1"]`) leaves its
direction entry absent — `sortDirection["h2"]` stays `undefined`, which is
none of the three values — while the key is nevertheless pushed into the
invocation order. -/
theorem c7_unknown_column_breaks_invariant :
    lookupAssoc c7cexState.sortDirection "h2" = Option.none ∧
    (∀ d : SortDirection, lookupAssoc c7cexState.sortDirection "h2" ≠ some d) ∧
    c7cexState.sortInvocationOrder = ["h2"] := by
  have hl : lookupAssoc c7cexState.sortDirection "h2" = Option.none := by decide
  refine ⟨hl, ?_, by decide⟩
  intro d
  rw [hl]
  exact fun hh => Option.noConfusion hh

/-- C7 (amended): after any sequence of interaction events — header-click
toggles restricted to columns present when the sort-state map was
initialized, plus arbitrary data/filter changes — each initial column's sort
state is one of the three direction values (the map stays defined exactly on
the initial keys), and the invocation order has no duplicates and contains
exactly the columns whose state is not `'None'`. -/
theorem c7_sort_state_invariant (keys : List String) (data : List Row)
    (fs : FilterSpec) (mr : Option Nat) (ops : List TableOp)
    (hops : ∀ h, TableOp.toggle h ∈ ops → h ∈ keys) :
    SDOk (runOps (mountState keys data fs mr) ops) keys := by
  suffices H : ∀ (l : List TableOp) (s : TableState),
      (∀ h, TableOp.toggle h ∈ l → h ∈ keys) → SDOk s keys →
      SDOk (runOps s l) keys from
    H ops _ hops (SDOk_mount keys data fs mr)
  intro l
  induction l with
  | nil => intro s _ hs; exact hs
  | cons op t ih =>
      intro s hops hs
      show SDOk (runOps (applyOp s op) t) keys
      apply ih
      · intro h hh
        exact hops h (by simp [hh])
      · cases op with
        | toggle h => exact SDOk_toggle s keys h hs (hops h (by simp))
        | change nd nf => exact SDOk_change s keys nd nf hs

/-- C7 (witness): the invariant holds after toggling the initialized column
`"h1"` once. -/
theorem c7_witness :
    SDOk (runOps (mountState ["h1"] [] [] Option.none) [TableOp.toggle "h1"])
      ["h1"] :=
  c7_sort_state_invariant ["h1"] [] [] Option.none [TableOp.toggle "h1"]
    (by intro h hh
        simp only [List.mem_singleton, TableOp.toggle.injEq] at hh
        simp [hh])

/- ## Claim C3 -/

theorem ltNegTransOn_spec (h : String) (rows : List Row)
    (hn : ltNegTransOn h rows = true) :
    ∀ x y z, x ∈ rows → y ∈ rows → z ∈ rows →
      rowLt h y x = false → rowLt h z y = false → rowLt h z x = false := by
  intro x y z hx hy hz h1 h2
  unfold ltNegTransOn at hn
  rw [List.all_eq_true] at hn
  have h3 := List.all_eq_true.mp (List.all_eq_true.mp (hn z hz) y hy) x hx
  cases hzx : rowLt h z x
  · rfl
  · rw [hzx, h1, h2] at h3
    simp at h3

/-- C3: toggling sort once on column `A` and then once on `B` (both clicks
from the `'None'` state, hence both Ascending) displays a permutation of the
input that is primarily sorted by `B` with `A` as tie-break: adjacent in
order, every later row is `B`-greater, or `B`-equal and not `A`-smaller
(last-toggled wins as primary key).  The hypotheses `ltNegTransOn` state
that the two columns compare consistently over the given rows, which holds
for every homogeneous (single-typed) column; the specification leaves
mixed-type columns undefined.  In particular, on the literal rows
`[{id:1,h1:'b',h2:2},{id:2,h1:'a',h2:2},{id:3,h1:'a',h2:1}]`, toggling `h2`
then `h1` displays the order `id:3, id:2, id:1`. -/
theorem c3_last_toggled_is_primary :
    (∀ (keys : List String) (rows : List Row) (A B : String),
      A ∈ keys → B ∈ keys → A ≠ B →
      ltNegTransOn A rows = true → ltNegTransOn B rows = true →
      ((toggleSort (toggleSort (mountState keys rows [] Option.none) A)
        B).displayed).Perm rows ∧
      ((toggleSort (toggleSort (mountState keys rows [] Option.none) A)
        B).displayed).Pairwise
        (fun r s => rowLt B r s = true ∨
          (rowLt B r s = false ∧ rowLt B s r = false ∧ rowLt A s r = false))) ∧
    (toggleSort (toggleSort (mountState ["id", "h1", "h2"] c3rows [] Option.none)
      "h2") "h1").displayed = [c3row3, c3row2, c3row1] := by
  constructor
  · intro keys rows A B hA hB hAB hnA hnB
    have hm : (mountState keys rows [] Option.none).displayed = rows :=
      (updateFilteredData_of_empty (initState keys rows [] Option.none) rfl).1
    have hdirs : (mountState keys rows [] Option.none).sortDirection
        = initSortDirection keys := (updateFilteredData_frame _).2.1
    have hlA : lookupAssoc (mountState keys rows [] Option.none).sortDirection A
        = some SortDirection.None := by
      rw [hdirs, lookup_initSortDirection]; simp [hA]
    have hlB : lookupAssoc
        (toggleSort (mountState keys rows [] Option.none) A).sortDirection B
        = some SortDirection.None := by
      rw [toggleSort_of_none _ A hlA]
      show lookupAssoc
        (setAssoc (mountState keys rows [] Option.none).sortDirection A
          SortDirection.Ascending) B = _
      rw [lookup_setAssoc_ne _ _ _ _ (Ne.symm hAB)]
      rw [hdirs, lookup_initSortDirection]; simp [hB]
    have hdisp : (toggleSort (toggleSort (mountState keys rows [] Option.none) A)
        B).displayed
        = jsStableSort (rowLe B 1) (jsStableSort (rowLe A 1) rows) := by
      rw [toggleSort_of_none _ B hlB, toggleSort_of_none _ A hlA]
      show jsStableSort (rowLe B 1) (jsStableSort (rowLe A 1)
        (mountState keys rows [] Option.none).displayed) = _
      rw [hm]
    rw [hdisp]
    have hfA : rowLe A 1 = fun r s => !(rowLt A s r) := by
      funext r s; exact rowLe_one A r s
    have hfB : rowLe B 1 = fun r s => !(rowLt B s r) := by
      funext r s; exact rowLe_one B r s
    rw [hfA, hfB]
    constructor
    · exact (jsStableSort_perm _ _).trans (jsStableSort_perm _ _)
    · have htotA : ∀ x y : Row, x ∈ rows → y ∈ rows →
          (!(rowLt A y x)) = true ∨ (!(rowLt A x y)) = true := by
        intro x y _ _
        by_cases hxy : rowLt A y x = true
        · exact Or.inr (by simp [rowLt_asymm A y x hxy])
        · exact Or.inl (by revert hxy; cases rowLt A y x <;> simp)
      have htrA : ∀ x y z : Row, x ∈ rows → y ∈ rows → z ∈ rows →
          (!(rowLt A y x)) = true → (!(rowLt A z y)) = true →
          (!(rowLt A z x)) = true := by
        intro x y z hx hy hz h1 h2
        simp only [Bool.not_eq_true'] at h1 h2 ⊢
        exact ltNegTransOn_spec A rows hnA x y z hx hy hz h1 h2
      have hsortedA := jsStableSort_pairwise (fun x y : Row => !(rowLt A y x))
        (fun x => x ∈ rows) htotA htrA rows (fun x hx => hx)
      have hpwA : (jsStableSort (fun x y : Row => !(rowLt A y x)) rows).Pairwise
          (fun x y => rowLt A y x = false) :=
        hsortedA.imp (by intro a b hab; simpa using hab)
      exact jsStableSort_stable (rowLt A) (rowLt B) (fun x => x ∈ rows)
        (fun x y hxy => rowLt_asymm B x y hxy)
        (fun x y z hx hy hz h1 h2 =>
          ltNegTransOn_spec B rows hnB x y z hx hy hz h1 h2)
        _ (fun x hx => (mem_jsStableSort _ x rows).mp hx) hpwA
  · decide

/-- C3 (witness): the universal statement instantiated at the literal
scenario rows with `A := "h2"`, `B := "h1"`. -/
theorem c3_witness :
    ((toggleSort (toggleSort (mountState ["id", "h1", "h2"] c3rows [] Option.none)
      "h2") "h1").displayed).Perm c3rows ∧
    ((toggleSort (toggleSort (mountState ["id", "h1", "h2"] c3rows [] Option.none)
      "h2") "h1").displayed).Pairwise
      (fun r s => rowLt "h1" r s = true ∨
        (rowLt "h1" r s = false ∧ rowLt "h1" s r = false ∧
          rowLt "h2" s r = false)) :=
  c3_last_toggled_is_primary.1 ["id", "h1", "h2"] c3rows "h2" "h1"
    (by decide) (by decide) (by decide) (by decide) (by decide)
